import Mathlib

/- Verification development for the Lo-Modics Field vocoder
   (src/hooks/useVocoderAudio.ts).  The audio worklet code and the WAV
   encoder are embedded shallowly over exact rationals (ℚ).  Three pieces
   of JS behaviour that are not pure rational arithmetic enter the
   embedding as explicit parameters:
   - `tanpi : ℚ → ℚ` models the expression `Math.tan(Math.PI * x)`
     (ECMA-262 specifies Math.tan as implementation-approximated);
   - `pow2 : ℚ → ℚ` models `2 ** x` for a float exponent
     (also implementation-approximated for non-trivial exponents);
   - `rnd : ℕ → ℚ` is the stream of `Math.random()` draws, consumed in
     call order; every draw lies in [0,1). -/

namespace LoModics

/-- Truncation toward zero on rationals: this is how ECMA-262
    ToIntegerOrInfinity (used by `DataView.setInt16`) removes the
    fractional part of a number. -/
def ratTrunc (x : ℚ) : ℤ := if 0 ≤ x then ⌊x⌋ else ⌈x⌉

/-- JS remainder by 1 (`x % 1`): truncated division, the result keeps the
    sign of the dividend. -/
def jsMod1 (x : ℚ) : ℚ := x - ratTrunc x

/-- `lerp` from the worklet code: `(a, b, t) => a + (b - a) * t`. -/
def lerp (a b t : ℚ) : ℚ := a + (b - a) * t

/-- `midi_to_hz` from the worklet code: `(n) => 2 ** ((n - 69) / 12) * 440`,
    with the JS power operator abstracted as `pow2`. -/
def midi_to_hz (pow2 : ℚ → ℚ) (n : ℚ) : ℚ := pow2 ((n - 69) / 12) * 440

/-- Output tap selector of the state-variable filter (`this.mode`); this
    program only ever constructs band-pass filters, the class also offers
    the low-pass tap. -/
inductive SVFMode where
  | lp
  | bp
deriving DecidableEq

/-- One SVF stage: `{lp:0,bp:0,hp:0,ic1eq:0,ic2eq:0}` from the worklet
    (the `hp`/`ap` slots are never written nor read and are omitted). -/
structure SVFStage where
  lp : ℚ := 0
  bp : ℚ := 0
  ic1eq : ℚ := 0
  ic2eq : ℚ := 0
deriving DecidableEq

/-- The all-zero stage produced by the SVF constructor. -/
def zeroStage : SVFStage := {}

/-- State of class `SVF`: mode, stage list, current `(fc, q)` targets, the
    memoization keys `_fc`/`_q` (JS `undefined` before the first
    `process` call, hence `Option`), and the cached coefficients. -/
structure SVF where
  mode : SVFMode
  stages : List SVFStage
  q : ℚ
  fc : ℚ
  cfc : Option ℚ := none
  cq : Option ℚ := none
  g : ℚ := 0
  k : ℚ := 0
  a1 : ℚ := 0
  a2 : ℚ := 0
  a3 : ℚ := 0
deriving DecidableEq

/-- `new SVF({mode, num, q})` with the default `fc = .25`: `num` zeroed
    stages, coefficients not yet computed. -/
def mkSVF (mode : SVFMode) (num : ℕ) (q fc : ℚ) : SVF :=
  { mode := mode, stages := List.replicate num zeroStage, q := q, fc := fc }

/-- `SVF._clock`: one trapezoidal update of a stage. -/
def svfClock (s : SVFStage) (input a1 a2 a3 : ℚ) : SVFStage :=
  let v3 := input - s.ic2eq
  let v1 := a1 * s.ic1eq + a2 * v3
  let v2 := s.ic2eq + a2 * s.ic1eq + a3 * v3
  { lp := v2, bp := v1, ic1eq := 2 * v1 - s.ic1eq, ic2eq := 2 * v2 - s.ic2eq }

/-- Coefficient memoization at the head of `SVF.process`: recompute
    `g,k,a1,a2,a3` only when `(fc,q)` differs from the cached `(_fc,_q)`.
    The recomputation halves `fc` first (`const fc = this.fc * 0.5`), then
    `g = Math.tan(Math.PI * fc)`. -/
def svfCoeffs (tanpi : ℚ → ℚ) (f : SVF) : SVF :=
  if f.cfc = some f.fc ∧ f.cq = some f.q then f
  else
    let fch := f.fc * (1/2)
    let g := tanpi fch
    let k := 1 / f.q
    let a1 := 1 / (1 + g * (g + k))
    let a2 := g * a1
    let a3 := g * a2
    { f with cfc := some f.fc, cq := some f.q, g := g, k := k,
             a1 := a1, a2 := a2, a3 := a3 }

/-- Reading `stages[i][mode]` after clocking. -/
def svfTap (mode : SVFMode) (s : SVFStage) : ℚ :=
  match mode with
  | .lp => s.lp
  | .bp => s.bp

/-- The stage loop of `SVF.process`: each stage is clocked twice with the
    same stage input, then the mode tap becomes the next stage's input. -/
def svfStagesRun (mode : SVFMode) (a1 a2 a3 : ℚ) :
    List SVFStage → ℚ → ℚ × List SVFStage
  | [], input => (input, [])
  | s :: rest, input =>
    let s1 := svfClock s input a1 a2 a3
    let s2 := svfClock s1 input a1 a2 a3
    let out := svfTap mode s2
    let r := svfStagesRun mode a1 a2 a3 rest out
    (r.1, s2 :: r.2)

/-- `SVF.process(input)`: memoized coefficient update, then the cascade. -/
def svfProcess (tanpi : ℚ → ℚ) (f : SVF) (input : ℚ) : ℚ × SVF :=
  let f1 := svfCoeffs tanpi f
  let r := svfStagesRun f1.mode f1.a1 f1.a2 f1.a3 f1.stages input
  (r.1, { f1 with stages := r.2 })

/-- Class `EnvelopeFollower`: `a = {attack, release}`, `y1 = 0`. -/
structure EnvelopeFollower where
  attack : ℚ
  release : ℚ
  y1 : ℚ := 0
deriving DecidableEq

/-- `EnvelopeFollower.process(x)`: pick the attack coefficient when
    `x > y1`, else the release coefficient, then one-pole smooth. -/
def envProcess (e : EnvelopeFollower) (x : ℚ) : ℚ × EnvelopeFollower :=
  let c := if e.y1 < x then e.attack else e.release
  let y := (1 - c) * e.y1 + c * x
  (y, { e with y1 := y })

/-- `process` applied `n` times with a constant input `x`. -/
def envIter (e : EnvelopeFollower) (x : ℚ) : ℕ → EnvelopeFollower
  | 0 => e
  | n + 1 => (envProcess (envIter e x n) x).2

/-- `process` folded over a list of inputs (state after the run). -/
def envFoldl (e : EnvelopeFollower) (xs : List ℚ) : EnvelopeFollower :=
  xs.foldl (fun acc x => (envProcess acc x).2) e

/-- One unison partial of class `Sy`: `{ p: Math.random(), detune }`. -/
structure Op where
  p : ℚ
  detune : ℚ
deriving DecidableEq

/-- Carrier synth state (class `Sy`): the three unison partials. -/
structure Sy where
  ops : List Op
deriving DecidableEq

/-- `new Sy()`: `nunison = 3`; partial `i` gets a random initial phase
    (draw `i` of the stream) and detune `2 ** (((i/2 * 2 - 1) * 0.1) / 12)`
    (a linear ±0.1-semitone spread). -/
def mkSy (pow2 : ℚ → ℚ) (rnd : ℕ → ℚ) : Sy :=
  { ops := (List.range 3).map (fun (i : ℕ) =>
      let t : ℚ := (i : ℚ) / 2
      let semitn := (t * 2 - 1) * (1/10)
      { p := rnd i, detune := pow2 (semitn / 12) }) }

/-- One partial's contribution and phase advance inside `Sy.process`:
    emit +1 while `p < 0.5`, else -1; then `p += freq * detune; p %= 1`. -/
def opTick (freq : ℚ) (op : Op) : ℚ × Op :=
  let v : ℚ := if op.p < 1/2 then 1 else -1
  (v, { op with p := jsMod1 (op.p + freq * op.detune) })

/-- `UPDATE_PARAMS` snapshot `{carrierNoise, size, speed, pitch}`. -/
structure Params where
  carrierNoise : ℚ
  size : ℚ
  speed : ℚ
  pitch : ℚ
deriving DecidableEq

/-- `Sy.process(that)`: normalized base frequency from the pitch
    parameter, square-wave sum of the three partials, average, then blend
    toward uniform noise in [-0.5, 0.5) by `carrierNoise`; `noise` is the
    `Math.random()` draw of this sample. -/
def syProcess (pow2 : ℚ → ℚ) (ps : Params) (dt noise : ℚ) (s : Sy) : ℚ × Sy :=
  let freq := midi_to_hz pow2 (40 + ps.pitch) * dt
  let ticked := s.ops.map (opTick freq)
  let val := (ticked.map Prod.fst).sum / (s.ops.length : ℚ)
  (lerp val (noise - 1/2) ps.carrierNoise, { ops := ticked.map Prod.snd })

/-- One vocoder band: fixed center frequency, a band-pass SVF on the
    modulator path, one on the carrier path, and an envelope follower. -/
structure Band where
  freq : ℚ
  modFilter : SVF
  carrierFilter : SVF
  envelopeFollower : EnvelopeFollower
deriving DecidableEq

/-- The eight fixed band center frequencies from `initBands`. -/
def bandFreqs : List ℚ := [123, 294, 481, 746, 1387, 2255, 3403, 4865]

/-- One entry of `initBands`: two 2-stage band-pass cascades with `q = 4`
    (and the constructor's default `fc = .25`), attack 0.005, release
    0.02. -/
def mkBand (f : ℚ) : Band :=
  { freq := f,
    modFilter := mkSVF .bp 2 4 (1/4),
    carrierFilter := mkSVF .bp 2 4 (1/4),
    envelopeFollower := { attack := 1/200, release := 1/50 } }

/-- `initBands()`. -/
def initBands : List Band := bandFreqs.map mkBand

/-- Per-band work of one sample of `VocoderProcessor.process`: assign the
    computed cutoff to both filters, filter the modulator, follow the
    rectified result, filter the carrier, and contribute
    `carrierFiltered * envelope`. -/
def bandStep (tanpi : ℚ → ℚ) (fc modS carS : ℚ) (b : Band) : ℚ × Band :=
  let mf0 := { b.modFilter with fc := fc }
  let cf0 := { b.carrierFilter with fc := fc }
  let mr := svfProcess tanpi mf0 modS
  let er := envProcess b.envelopeFollower |mr.1|
  let cr := svfProcess tanpi cf0 carS
  (cr.1 * er.1,
   { b with modFilter := mr.2, carrierFilter := cr.2, envelopeFollower := er.2 })

/-- The band loop of one sample: each band's cutoff is
    `(2 ** size) * band.freq * dt` (via `fcOf`), contributions are
    summed. -/
def bandsRun (tanpi : ℚ → ℚ) (fcOf : ℚ → ℚ) (modS carS : ℚ) :
    List Band → ℚ × List Band
  | [] => (0, [])
  | b :: rest =>
    let r := bandStep tanpi (fcOf b.freq) modS carS b
    let rr := bandsRun tanpi fcOf modS carS rest
    (r.1 + rr.1, r.2 :: rr.2)

/-- State of `VocoderProcessor`: current parameter snapshot, `dt = 1 /
    sampleRate`, the carrier synth, the eight bands, and the index of the
    next `Math.random()` draw (the constructor consumed draws 0..2). -/
structure Processor where
  ps : Params
  dt : ℚ
  carrierSynth : Sy
  bands : List Band
  rndIdx : ℕ
deriving DecidableEq

/-- The `VocoderProcessor` constructor: default parameters
    `{carrierNoise: 0.1, size: 0, speed: 1, pitch: 0.3}`, fresh carrier
    synth (random phases), fresh bands. -/
def mkProcessor (pow2 : ℚ → ℚ) (rnd : ℕ → ℚ) (sampleRate : ℚ) : Processor :=
  { ps := { carrierNoise := 1/10, size := 0, speed := 1, pitch := 3/10 },
    dt := 1 / sampleRate,
    carrierSynth := mkSy pow2 rnd,
    bands := initBands,
    rndIdx := 3 }

/-- The `UPDATE_PARAMS` port message: wholesale snapshot replacement. -/
def paramsSet (p : Processor) (ps : Params) : Processor := { p with ps := ps }

/-- One output sample of `VocoderProcessor.process`: one carrier draw
    (consuming one `Math.random()` value), the band loop, and the fixed
    gain compensation `* 4`. -/
def processorSample (pow2 tanpi : ℚ → ℚ) (rnd : ℕ → ℚ) (modS : ℚ)
    (p : Processor) : ℚ × Processor :=
  let cs := syProcess pow2 p.ps p.dt (rnd p.rndIdx) p.carrierSynth
  let br := bandsRun tanpi (fun fr => pow2 p.ps.size * fr * p.dt) modS cs.1 p.bands
  (br.1 * 4,
   { p with carrierSynth := cs.2, bands := br.2, rndIdx := p.rndIdx + 1 })

/-- The sample loop of `VocoderProcessor.process` starting at index `i`
    for `count` samples; `mc` is the first channel of the first input
    (the only one the code reads).  The Web Audio host guarantees the
    modulator channel spans the block, so in-range reads are total;
    `getD _ 0` records that guarantee. -/
def runFrom (pow2 tanpi : ℚ → ℚ) (rnd : ℕ → ℚ) (mc : List ℚ) :
    Processor → ℕ → ℕ → List ℚ × Processor
  | p, _, 0 => ([], p)
  | p, i, c + 1 =>
    let s := processorSample pow2 tanpi rnd (mc.getD i 0) p
    let rest := runFrom pow2 tanpi rnd mc s.2 (i + 1) c
    (s.1 :: rest.1, rest.2)

/-- Overwrite the first `samples.length` slots of a channel (out-of-range
    writes are dropped, as on a `Float32Array`). -/
def writeFront (ch samples : List ℚ) : List ℚ :=
  samples.take ch.length ++ ch.drop samples.length

/-- The write pattern of `VocoderProcessor.process`: `leftChannel` is
    channel 0, `rightChannel` is channel 1 when the output has more than
    one channel and otherwise aliases channel 0; every further channel is
    never written. -/
def writeFirstTwo (output : List (List ℚ)) (samples : List ℚ) : List (List ℚ) :=
  match output with
  | [] => []
  | ch0 :: rest =>
    match rest with
    | [] => [writeFront ch0 samples]
    | ch1 :: rest2 => writeFront ch0 samples :: writeFront ch1 samples :: rest2

/-- Result of one `process` callback: the output channels, the processor
    state, and the boolean return value. -/
structure BlockOut where
  outs : List (List ℚ)
  state : Processor
  keepAlive : Bool
deriving DecidableEq

/-- `VocoderProcessor.process(inputs, outputs)` for one block:
    `modInput = inputs[0]`, `output = outputs[0]` (with its pre-call
    contents; the Web Audio host hands these over zero-filled).  An
    absent or empty modulator zero-fills left/right and returns `true`;
    otherwise the sample loop runs over `leftChannel.length` samples.
    The host always supplies at least one output channel, recorded by
    reading channel 0 with `headD []`. -/
def processBlock (pow2 tanpi : ℚ → ℚ) (rnd : ℕ → ℚ) (p : Processor)
    (modInput output : List (List ℚ)) : BlockOut :=
  let left := output.headD []
  if modInput.length = 0 ∨ (modInput.headD []).length = 0 then
    { outs := writeFirstTwo output (List.replicate left.length 0),
      state := p, keepAlive := true }
  else
    let sp := runFrom pow2 tanpi rnd (modInput.headD []) p 0 left.length
    { outs := writeFirstTwo output sp.1, state := sp.2, keepAlive := true }

/-- `Math.min` on rationals. -/
def jsMin (a b : ℚ) : ℚ := if a ≤ b then a else b

/-- `Math.max` on rationals. -/
def jsMax (a b : ℚ) : ℚ := if b ≤ a then a else b

/-- Clamp to [-1, 1]: `Math.max(-1, Math.min(1, x))`. -/
def clamp1 (x : ℚ) : ℚ := jsMax (-1) (jsMin 1 x)

/-- The 16-bit quantizer of `audioBufferToWav`: clamp, scale by 32768 for
    negative values and 32767 otherwise, then `setInt16` truncates the
    fractional part toward zero (ECMA-262 ToInt16). -/
def quantizePCM (x : ℚ) : ℤ :=
  let s := clamp1 x
  ratTrunc (if s < 0 then s * 32768 else s * 32767)

/-- Modelled from the spec (§4.6 sample quantization): identical clamp
    and asymmetric scaling, but rounding the scaled value to the nearest
    integer, as the spec's words demand. -/
def quantizePCMRound (x : ℚ) : ℤ :=
  let s := clamp1 x
  round (if s < 0 then s * 32768 else s * 32767)

/-- Two's-complement 16-bit pattern stored for an in-range or wrapped
    integer sample. -/
def toUint16 (z : ℤ) : ℕ := (Int.emod z 65536).toNat

/-- Little-endian bytes of `setUint16`. -/
def le16 (v : ℕ) : List ℕ := [v % 256, v / 256 % 256]

/-- Little-endian bytes of `setUint32`. -/
def le32 (v : ℕ) : List ℕ :=
  [v % 256, v / 256 % 256, v / 65536 % 256, v / 16777216 % 256]

/-- The two data bytes of one encoded sample. -/
def sampleBytes (x : ℚ) : List ℕ := le16 (toUint16 (quantizePCM x))

/-- One interleaved frame: for each channel, `channels[i][offset] || 0`
    encoded to two bytes. -/
def rowBytes (channels : List (List ℚ)) (off : ℕ) : List ℕ :=
  match channels with
  | [] => []
  | ch :: rest => sampleBytes (ch.getD off 0) ++ rowBytes rest off

/-- The interleaving loop of `audioBufferToWav`, frames `off` to
    `off + count - 1`. -/
def wavDataFrom (channels : List (List ℚ)) : ℕ → ℕ → List ℕ
  | _, 0 => []
  | off, c + 1 => rowBytes channels off ++ wavDataFrom channels (off + 1) c

/-- All interleaved PCM data bytes. -/
def wavData (channels : List (List ℚ)) (frames : ℕ) : List ℕ :=
  wavDataFrom channels 0 frames

/-- The 44 header bytes of `audioBufferToWav`, written in the code's
    order; `length` is the total file size `frames * channels * 2 + 44`,
    and the data chunk size is written as `length - pos - 4` with
    `pos = 40`. -/
def wavHeader (frames numOfChan sampleRate : ℕ) : List ℕ :=
  let length := frames * numOfChan * 2 + 44
  le32 0x46464952 ++ le32 (length - 8) ++ le32 0x45564157 ++
  le32 0x20746d66 ++ le32 16 ++ le16 1 ++ le16 numOfChan ++
  le32 sampleRate ++ le32 (sampleRate * 2 * numOfChan) ++
  le16 (numOfChan * 2) ++ le16 16 ++
  le32 0x61746164 ++ le32 (length - 40 - 4)

/-- `audioBufferToWav`: header then interleaved 16-bit PCM. -/
def audioBufferToWav (channels : List (List ℚ)) (frames sampleRate : ℕ) :
    List ℕ :=
  wavHeader frames channels.length sampleRate ++ wavData channels frames

/-- Reads a little-endian 32-bit field of a byte list at `off`. -/
def readLE32 (bytes : List ℕ) (off : ℕ) : ℕ :=
  match bytes.drop off with
  | b0 :: b1 :: b2 :: b3 :: _ => b0 + 256 * b1 + 65536 * b2 + 16777216 * b3
  | _ => 0

/-- Reads a little-endian 16-bit field of a byte list at `off`. -/
def readLE16 (bytes : List ℕ) (off : ℕ) : ℕ :=
  match bytes.drop off with
  | b0 :: b1 :: _ => b0 + 256 * b1
  | _ => 0

/-- The offline render path of `renderAndDownload` for a mono recorded
    buffer at playback speed 1 (the speed parameter only drives the
    upstream source): a fresh `VocoderProcessor` (drawing fresh random
    phases from the stream), the `UPDATE_PARAMS` message posted before
    rendering, the whole buffer processed in order (block boundaries do
    not affect the threaded state), and the rendered buffer encoded by
    `audioBufferToWav`. -/
def renderPipeline (pow2 tanpi : ℚ → ℚ) (rnd : ℕ → ℚ) (prms : Params)
    (input : List ℚ) (sampleRate : ℕ) : List ℕ :=
  let p0 := paramsSet (mkProcessor pow2 rnd (sampleRate : ℚ)) prms
  let r := runFrom pow2 tanpi rnd input p0 0 input.length
  audioBufferToWav [r.1] input.length sampleRate

/-- Invariant used for the oscillator-phase claim: every partial's phase
    lies in [0,1) and its detune ratio is positive. -/
def syInv (s : Sy) : Prop := ∀ op ∈ s.ops, (0 ≤ op.p ∧ op.p < 1) ∧ 0 < op.detune

/-- Invariant used for the silence claim: a band whose modulator-path
    filter memory and envelope state are all zero. -/
def bandModZero (b : Band) : Prop :=
  (∀ s ∈ b.modFilter.stages, s = zeroStage) ∧ b.envelopeFollower.y1 = 0

set_option maxRecDepth 8000

lemma clamp1_lb (x : ℚ) : -1 ≤ clamp1 x := by
  unfold clamp1 jsMax jsMin
  split_ifs <;> linarith

lemma clamp1_ub (x : ℚ) : clamp1 x ≤ 1 := by
  unfold clamp1 jsMax jsMin
  split_ifs <;> linarith

unseal Rat.mul Rat.inv Rat.add Rat.sub in
/-- C2, amended part.  The encoder clamps to [-1,1] and scales
    asymmetrically exactly as claimed, but `setInt16` truncates the
    scaled value toward zero (floor for non-negative values, ceiling for
    negative ones) instead of rounding to the nearest integer.  The
    encoded integer never overflows 16 bits and input exactly +1.0
    encodes to 32767. -/
theorem C2_quantizer_amended (x : ℚ) :
    (-32768 ≤ quantizePCM x ∧ quantizePCM x ≤ 32767) ∧
    quantizePCM 1 = 32767 ∧
    (0 ≤ clamp1 x → quantizePCM x = ⌊clamp1 x * 32767⌋) ∧
    (clamp1 x < 0 → quantizePCM x = ⌈clamp1 x * 32768⌉) := by
  have hlb := clamp1_lb x
  have hub := clamp1_ub x
  refine ⟨?_, by decide, ?_, ?_⟩
  · by_cases hs : clamp1 x < 0
    · have hv1 : -32768 ≤ clamp1 x * 32768 := by nlinarith
      have hv2 : clamp1 x * 32768 < 0 := by nlinarith
      have : quantizePCM x = ⌈clamp1 x * 32768⌉ := by
        simp [quantizePCM, ratTrunc, hs, not_le.mpr hv2]
      rw [this]
      constructor
      · have hc := Int.le_ceil (clamp1 x * 32768)
        have : (-32768 : ℚ) ≤ (⌈clamp1 x * 32768⌉ : ℚ) := by linarith
        exact_mod_cast this
      · refine Int.ceil_le.mpr ?_
        push_cast
        linarith
    · push_neg at hs
      have hv1 : 0 ≤ clamp1 x * 32767 := by nlinarith
      have hv2 : clamp1 x * 32767 ≤ 32767 := by nlinarith
      have : quantizePCM x = ⌊clamp1 x * 32767⌋ := by
        simp [quantizePCM, ratTrunc, not_lt.mpr hs, hv1]
      rw [this]
      constructor
      · refine Int.le_floor.mpr ?_
        push_cast
        linarith
      · have hf := Int.floor_le (clamp1 x * 32767)
        have : (⌊clamp1 x * 32767⌋ : ℚ) ≤ 32767 := by linarith
        exact_mod_cast this
  · intro hs
    have hv1 : 0 ≤ clamp1 x * 32767 := by nlinarith
    simp [quantizePCM, ratTrunc, not_lt.mpr hs, hv1]
  · intro hs
    have hv2 : clamp1 x * 32768 < 0 := by nlinarith
    simp [quantizePCM, ratTrunc, hs, not_le.mpr hv2]

unseal Rat.mul Rat.inv Rat.add Rat.sub in
/-- C2 witness: the truncation characterization applied at x = 1/2. -/
theorem C2_quantizer_witness :
    0 ≤ clamp1 (1/2) ∧ quantizePCM (1/2) = ⌊clamp1 (1/2) * 32767⌋ :=
  ⟨by decide, (C2_quantizer_amended (1/2)).2.2.1 (by decide)⟩

unseal Rat.mul Rat.inv Rat.add Rat.sub in
/-- C2 counterexample: the claim says the scaled value is rounded to the
    nearest 16-bit integer.  At input 1/32768 the scaled value is
    32767/32768 ≈ 0.99997; the code truncates it to 0 while
    round-to-nearest (the spec-modelled quantizer) gives 1. -/
theorem C2_quantizer_cex :
    quantizePCM (1/32768) = 0 ∧ quantizePCMRound (1/32768) = 1 ∧
    quantizePCM (1/32768) ≠ quantizePCMRound (1/32768) := by
  decide

/-- C7: the SVF recomputes its coefficients only when `(fc, q)` differs
    from the memoized `(_fc, _q)`; a `process` call whose pair equals the
    cached pair leaves every coefficient unchanged, and a recomputation
    stores the cache key and produces `g = tan(π·fc·0.5)` (the `tanpi`
    parameter of the embedding applied to `fc * 0.5`), `k = 1/q`,
    `a1 = 1/(1+g(g+k))`, `a2 = g·a1`, `a3 = g·a2`. -/
theorem C7_svf_memoization (tanpi : ℚ → ℚ) (f : SVF) (x : ℚ) :
    ((f.cfc = some f.fc ∧ f.cq = some f.q) →
      ((svfProcess tanpi f x).2.g = f.g ∧
       (svfProcess tanpi f x).2.k = f.k ∧
       (svfProcess tanpi f x).2.a1 = f.a1 ∧
       (svfProcess tanpi f x).2.a2 = f.a2 ∧
       (svfProcess tanpi f x).2.a3 = f.a3 ∧
       (svfProcess tanpi f x).2.cfc = f.cfc ∧
       (svfProcess tanpi f x).2.cq = f.cq)) ∧
    (¬(f.cfc = some f.fc ∧ f.cq = some f.q) →
      ((svfProcess tanpi f x).2.g = tanpi (f.fc * (1/2)) ∧
       (svfProcess tanpi f x).2.k = 1 / f.q ∧
       (svfProcess tanpi f x).2.a1 =
         1 / (1 + (svfProcess tanpi f x).2.g *
               ((svfProcess tanpi f x).2.g + (svfProcess tanpi f x).2.k)) ∧
       (svfProcess tanpi f x).2.a2 =
         (svfProcess tanpi f x).2.g * (svfProcess tanpi f x).2.a1 ∧
       (svfProcess tanpi f x).2.a3 =
         (svfProcess tanpi f x).2.g * (svfProcess tanpi f x).2.a2 ∧
       (svfProcess tanpi f x).2.cfc = some f.fc ∧
       (svfProcess tanpi f x).2.cq = some f.q)) := by
  constructor
  · intro h
    simp [svfProcess, svfCoeffs, h]
  · intro h
    simp [svfProcess, svfCoeffs, h]

unseal Rat.mul Rat.inv Rat.add Rat.sub in
/-- C7 witness: a freshly constructed filter (empty cache) recomputes,
    and the produced coefficients satisfy a2 = g·a1. -/
theorem C7_svf_memoization_witness :
    (svfProcess (fun _ => 1) (mkSVF .bp 2 4 (1/4)) 0).2.a2 =
      (svfProcess (fun _ => 1) (mkSVF .bp 2 4 (1/4)) 0).2.g *
        (svfProcess (fun _ => 1) (mkSVF .bp 2 4 (1/4)) 0).2.a1 :=
  ((C7_svf_memoization (fun _ => 1) (mkSVF .bp 2 4 (1/4)) 0).2
    (by decide)).2.2.2.1

set_option maxHeartbeats 4000000 in
/-- C8: the 44-byte header of the PCM encoder carries, in order, the RIFF
    tag, the total file size minus 8, the WAVE tag, the `fmt ` chunk with
    PCM format code 1, the channel count, the sample rate, byte rate
    `sampleRate*2*channels`, block align `channels*2`, 16 bits per
    sample, the data tag, and data chunk size `frames*channels*2` — each
    exactly the input buffer's metadata (the 32/16-bit fields are exact
    as long as the metadata fits the field widths, which the hypotheses
    record). -/
theorem C8_wav_header (chans : List (List ℚ)) (frames sr : ℕ)
    (hch : chans.length < 32768)
    (hsz : frames * chans.length * 2 + 44 < 4294967296)
    (hbr : sr * 2 * chans.length < 4294967296)
    (hsr : sr < 4294967296) :
    readLE32 (audioBufferToWav chans frames sr) 0 = 0x46464952 ∧
    readLE32 (audioBufferToWav chans frames sr) 4 =
      frames * chans.length * 2 + 44 - 8 ∧
    readLE32 (audioBufferToWav chans frames sr) 8 = 0x45564157 ∧
    readLE32 (audioBufferToWav chans frames sr) 12 = 0x20746d66 ∧
    readLE32 (audioBufferToWav chans frames sr) 16 = 16 ∧
    readLE16 (audioBufferToWav chans frames sr) 20 = 1 ∧
    readLE16 (audioBufferToWav chans frames sr) 22 = chans.length ∧
    readLE32 (audioBufferToWav chans frames sr) 24 = sr ∧
    readLE32 (audioBufferToWav chans frames sr) 28 = sr * 2 * chans.length ∧
    readLE16 (audioBufferToWav chans frames sr) 32 = chans.length * 2 ∧
    readLE16 (audioBufferToWav chans frames sr) 34 = 16 ∧
    readLE32 (audioBufferToWav chans frames sr) 36 = 0x61746164 ∧
    readLE32 (audioBufferToWav chans frames sr) 40 = frames * chans.length * 2 := by
  refine ⟨?_, ?_, ?_, ?_, ?_, ?_, ?_, ?_, ?_, ?_, ?_, ?_, ?_⟩
  · have e : readLE32 (audioBufferToWav chans frames sr) 0 =
        0x46464952 % 256 + 256 * (0x46464952 / 256 % 256) +
          65536 * (0x46464952 / 65536 % 256) +
          16777216 * (0x46464952 / 16777216 % 256) := rfl
    rw [e]
  · have e : readLE32 (audioBufferToWav chans frames sr) 4 =
        (frames * chans.length * 2 + 44 - 8) % 256 +
          256 * ((frames * chans.length * 2 + 44 - 8) / 256 % 256) +
          65536 * ((frames * chans.length * 2 + 44 - 8) / 65536 % 256) +
          16777216 * ((frames * chans.length * 2 + 44 - 8) / 16777216 % 256) := rfl
    rw [e]; omega
  · have e : readLE32 (audioBufferToWav chans frames sr) 8 =
        0x45564157 % 256 + 256 * (0x45564157 / 256 % 256) +
          65536 * (0x45564157 / 65536 % 256) +
          16777216 * (0x45564157 / 16777216 % 256) := rfl
    rw [e]
  · have e : readLE32 (audioBufferToWav chans frames sr) 12 =
        0x20746d66 % 256 + 256 * (0x20746d66 / 256 % 256) +
          65536 * (0x20746d66 / 65536 % 256) +
          16777216 * (0x20746d66 / 16777216 % 256) := rfl
    rw [e]
  · have e : readLE32 (audioBufferToWav chans frames sr) 16 =
        16 % 256 + 256 * (16 / 256 % 256) + 65536 * (16 / 65536 % 256) +
          16777216 * (16 / 16777216 % 256) := rfl
    rw [e]
  · have e : readLE16 (audioBufferToWav chans frames sr) 20 =
        1 % 256 + 256 * (1 / 256 % 256) := rfl
    rw [e]
  · have e : readLE16 (audioBufferToWav chans frames sr) 22 =
        chans.length % 256 + 256 * (chans.length / 256 % 256) := rfl
    rw [e]; omega
  · have e : readLE32 (audioBufferToWav chans frames sr) 24 =
        sr % 256 + 256 * (sr / 256 % 256) + 65536 * (sr / 65536 % 256) +
          16777216 * (sr / 16777216 % 256) := rfl
    rw [e]; omega
  · have e : readLE32 (audioBufferToWav chans frames sr) 28 =
        (sr * 2 * chans.length) % 256 + 256 * ((sr * 2 * chans.length) / 256 % 256) +
          65536 * ((sr * 2 * chans.length) / 65536 % 256) +
          16777216 * ((sr * 2 * chans.length) / 16777216 % 256) := rfl
    rw [e]; omega
  · have e : readLE16 (audioBufferToWav chans frames sr) 32 =
        (chans.length * 2) % 256 + 256 * ((chans.length * 2) / 256 % 256) := rfl
    rw [e]; omega
  · have e : readLE16 (audioBufferToWav chans frames sr) 34 =
        16 % 256 + 256 * (16 / 256 % 256) := rfl
    rw [e]
  · have e : readLE32 (audioBufferToWav chans frames sr) 36 =
        0x61746164 % 256 + 256 * (0x61746164 / 256 % 256) +
          65536 * (0x61746164 / 65536 % 256) +
          16777216 * (0x61746164 / 16777216 % 256) := rfl
    rw [e]
  · have e : readLE32 (audioBufferToWav chans frames sr) 40 =
        (frames * chans.length * 2 + 44 - 40 - 4) % 256 +
          256 * ((frames * chans.length * 2 + 44 - 40 - 4) / 256 % 256) +
          65536 * ((frames * chans.length * 2 + 44 - 40 - 4) / 65536 % 256) +
          16777216 * ((frames * chans.length * 2 + 44 - 40 - 4) / 16777216 % 256) := rfl
    rw [e]; omega

/-- C8 witness: the header of a concrete stereo-free 2-frame mono buffer
    carries its sample rate at offset 24. -/
theorem C8_wav_header_witness :
    readLE32 (audioBufferToWav [[1/2, -1/2]] 2 44100) 24 = 44100 :=
  (C8_wav_header [[1/2, -1/2]] 2 44100 (by norm_num) (by norm_num)
    (by norm_num) (by norm_num)).2.2.2.2.2.2.2.1

lemma envProcess_coeffs (e : EnvelopeFollower) (x : ℚ) :
    (envProcess e x).2.attack = e.attack ∧ (envProcess e x).2.release = e.release := by
  simp [envProcess]

lemma envIter_coeffs (e : EnvelopeFollower) (x : ℚ) (n : ℕ) :
    (envIter e x n).attack = e.attack ∧ (envIter e x n).release = e.release := by
  induction n with
  | zero => exact ⟨rfl, rfl⟩
  | succ n ih =>
    rw [envIter, (envProcess_coeffs _ x).1, (envProcess_coeffs _ x).2]
    exact ih

lemma envProcess_y1_lt (e : EnvelopeFollower) (x : ℚ) (h : e.y1 < x) :
    (envProcess e x).2.y1 = (1 - e.attack) * e.y1 + e.attack * x := by
  simp [envProcess, h]

lemma envProcess_y1_ge (e : EnvelopeFollower) (x : ℚ) (h : ¬ e.y1 < x) :
    (envProcess e x).2.y1 = (1 - e.release) * e.y1 + e.release * x := by
  simp [envProcess, h]

lemma env_attack_dist (y0 x : ℚ) (h : y0 < x) (n : ℕ) :
    (envIter ⟨1/200, 1/50, y0⟩ x n).y1 < x ∧
    x - (envIter ⟨1/200, 1/50, y0⟩ x n).y1 = (199/200) ^ n * (x - y0) := by
  induction n with
  | zero =>
    refine ⟨h, ?_⟩
    show x - y0 = (199/200 : ℚ) ^ 0 * (x - y0)
    ring
  | succ n ih =>
    obtain ⟨hlt, heq⟩ := ih
    have ha := (envIter_coeffs ⟨1/200, 1/50, y0⟩ x n).1
    have hy : (envIter ⟨1/200, 1/50, y0⟩ x (n+1)).y1 =
        (1 - 1/200) * (envIter ⟨1/200, 1/50, y0⟩ x n).y1 + (1/200) * x := by
      rw [envIter, envProcess_y1_lt _ _ hlt, ha]
    constructor
    · rw [hy]; linarith
    · rw [hy, pow_succ]
      nlinarith [heq]

lemma env_release_dist (y0 x : ℚ) (h : x ≤ y0) (n : ℕ) :
    x ≤ (envIter ⟨1/200, 1/50, y0⟩ x n).y1 ∧
    (envIter ⟨1/200, 1/50, y0⟩ x n).y1 - x = (49/50) ^ n * (y0 - x) := by
  induction n with
  | zero =>
    refine ⟨h, ?_⟩
    show y0 - x = (49/50 : ℚ) ^ 0 * (y0 - x)
    ring
  | succ n ih =>
    obtain ⟨hge, heq⟩ := ih
    have hr := (envIter_coeffs ⟨1/200, 1/50, y0⟩ x n).2
    have hy : (envIter ⟨1/200, 1/50, y0⟩ x (n+1)).y1 =
        (1 - 1/50) * (envIter ⟨1/200, 1/50, y0⟩ x n).y1 + (1/50) * x := by
      rw [envIter, envProcess_y1_ge _ _ (not_lt.mpr hge), hr]
    constructor
    · rw [hy]; linarith
    · rw [hy, pow_succ]
      nlinarith [heq]

lemma env_le_target (y0 x : ℚ) (h : y0 ≤ x) (n : ℕ) :
    (envIter ⟨1/200, 1/50, y0⟩ x n).y1 ≤ x := by
  induction n with
  | zero => exact h
  | succ n ih =>
    have ha := (envIter_coeffs ⟨1/200, 1/50, y0⟩ x n).1
    have hr := (envIter_coeffs ⟨1/200, 1/50, y0⟩ x n).2
    by_cases hc : (envIter ⟨1/200, 1/50, y0⟩ x n).y1 < x
    · rw [envIter, envProcess_y1_lt _ _ hc, ha]; linarith
    · rw [envIter, envProcess_y1_ge _ _ hc, hr]
      push_neg at hc
      linarith

lemma env_ge_target (y0 x : ℚ) (h : x ≤ y0) (n : ℕ) :
    x ≤ (envIter ⟨1/200, 1/50, y0⟩ x n).y1 :=
  (env_release_dist y0 x h n).1

/-- C4, amended part.  With the code's coefficients (attack 0.005 chosen
    when input exceeds the state, release 0.02 otherwise), the output
    under a constant input does approach that constant monotonically from
    either side, with the exact geometric distances
    `(1-0.005)^n` (attack regime) and `(1-0.02)^n` (release regime); but
    the comparison in the claim is reversed: the attack coefficient is
    the smaller one, so convergence under attack is slower, never faster
    — after any number of samples the pure-release run is at least as
    close to its target as the pure-attack run. -/
theorem C4_envelope_convergence_amended (x y0 : ℚ) (n : ℕ) :
    ((0 ≤ x ∧ y0 ≤ x) →
      ((envIter ⟨1/200, 1/50, y0⟩ x n).y1 ≤ (envIter ⟨1/200, 1/50, y0⟩ x (n+1)).y1 ∧
       (envIter ⟨1/200, 1/50, y0⟩ x n).y1 ≤ x)) ∧
    (x ≤ y0 →
      ((envIter ⟨1/200, 1/50, y0⟩ x (n+1)).y1 ≤ (envIter ⟨1/200, 1/50, y0⟩ x n).y1 ∧
       x ≤ (envIter ⟨1/200, 1/50, y0⟩ x n).y1)) ∧
    (y0 < x →
      x - (envIter ⟨1/200, 1/50, y0⟩ x n).y1 = (199/200) ^ n * (x - y0)) ∧
    (x ≤ y0 →
      (envIter ⟨1/200, 1/50, y0⟩ x n).y1 - x = (49/50) ^ n * (y0 - x)) ∧
    (envIter ⟨1/200, 1/50, 1⟩ 0 n).y1 ≤ 1 - (envIter ⟨1/200, 1/50, 0⟩ 1 n).y1 := by
  refine ⟨?_, ?_, fun h => (env_attack_dist y0 x h n).2,
    fun h => (env_release_dist y0 x h n).2, ?_⟩
  · rintro ⟨-, hle⟩
    have hub := env_le_target y0 x hle n
    refine ⟨?_, hub⟩
    have ha := (envIter_coeffs ⟨1/200, 1/50, y0⟩ x n).1
    have hr := (envIter_coeffs ⟨1/200, 1/50, y0⟩ x n).2
    by_cases hc : (envIter ⟨1/200, 1/50, y0⟩ x n).y1 < x
    · rw [envIter, envProcess_y1_lt _ _ hc, ha]; linarith
    · rw [envIter, envProcess_y1_ge _ _ hc, hr]
      push_neg at hc
      linarith
  · intro hge
    have hlb := env_ge_target y0 x hge n
    refine ⟨?_, hlb⟩
    have hr := (envIter_coeffs ⟨1/200, 1/50, y0⟩ x n).2
    rw [envIter, envProcess_y1_ge _ _ (not_lt.mpr hlb), hr]
    linarith
  · have hatt := (env_attack_dist 0 1 (by norm_num) n).2
    have hrel := (env_release_dist 1 0 (by norm_num) n).2
    have hpow : (49/50 : ℚ) ^ n ≤ (199/200) ^ n :=
      pow_le_pow_left₀ (by norm_num) (by norm_num) n
    have h1 : (envIter ⟨1/200, 1/50, 1⟩ 0 n).y1 = (49/50) ^ n := by
      have := hrel; linarith
    have h2 : 1 - (envIter ⟨1/200, 1/50, 0⟩ 1 n).y1 = (199/200) ^ n := by
      have := hatt; linarith
    rw [h1, h2]
    exact hpow

/-- C4 witness: the monotone-approach part applied at x = 1, y0 = 0,
    n = 1. -/
theorem C4_envelope_convergence_witness :
    (envIter ⟨1/200, 1/50, 0⟩ 1 1).y1 ≤ (envIter ⟨1/200, 1/50, 0⟩ 1 2).y1 :=
  ((C4_envelope_convergence_amended 1 0 1).1 ⟨by norm_num, by norm_num⟩).1

/-- C4 counterexample: the claim says the attack coefficient 0.005
    reaches within 1% of the target after fewer samples than the release
    coefficient 0.02.  After 250 samples the pure-release run (state 1,
    constant input 0) is within 1% of its target while the pure-attack
    run (state 0, constant input 1, input always exceeds the state) is
    still more than 1% away — so release, not attack, converges first. -/
theorem C4_envelope_convergence_cex :
    (envIter ⟨1/200, 1/50, 1⟩ 0 250).y1 < 1/100 ∧
    1/100 < 1 - (envIter ⟨1/200, 1/50, 0⟩ 1 250).y1 := by
  have hrel := (env_release_dist 1 0 (by norm_num) 250).2
  have hatt := (env_attack_dist 0 1 (by norm_num) 250).2
  constructor
  · have h1 : (envIter ⟨1/200, 1/50, 1⟩ 0 250).y1 = (49/50) ^ 250 := by linarith
    rw [h1]
    norm_num
  · have h2 : 1 - (envIter ⟨1/200, 1/50, 0⟩ 1 250).y1 = (199/200) ^ 250 := by linarith
    rw [h2]
    norm_num

lemma envFoldl_bounds (M : ℚ) (xs : List ℚ) :
    ∀ e : EnvelopeFollower, e.attack = 1/200 → e.release = 1/50 →
      (∀ x ∈ xs, 0 ≤ x ∧ x ≤ M) → 0 ≤ e.y1 → e.y1 ≤ M →
      0 ≤ (envFoldl e xs).y1 ∧ (envFoldl e xs).y1 ≤ M := by
  induction xs with
  | nil => intro e _ _ _ h0 h1; exact ⟨h0, h1⟩
  | cons x xs ih =>
    intro e ha hr hmem h0 h1
    obtain ⟨hx0, hxM⟩ := hmem x (List.mem_cons_self x xs)
    have hstep : envFoldl e (x :: xs) = envFoldl (envProcess e x).2 xs := rfl
    rw [hstep]
    refine ih (envProcess e x).2 (by rw [(envProcess_coeffs e x).1, ha])
      (by rw [(envProcess_coeffs e x).2, hr])
      (fun y hy => hmem y (List.mem_cons_of_mem x hy)) ?_ ?_
    · by_cases hc : e.y1 < x
      · rw [envProcess_y1_lt e x hc, ha]; linarith
      · rw [envProcess_y1_ge e x hc, hr]; linarith
    · by_cases hc : e.y1 < x
      · rw [envProcess_y1_lt e x hc, ha]; linarith
      · rw [envProcess_y1_ge e x hc, hr]; linarith

/-- C10: the envelope follower state, initialized to 0 with the engine's
    coefficients 0.005/0.02 (both in [0,1], so every update is a convex
    combination), stays within [0, M] along any input sequence of values
    in [0, M]; the engine's bands all carry exactly this follower, so
    each per-band envelope is bounded by the peak of the band-filtered
    rectified modulator it consumes. -/
theorem C10_envelope_bounded (xs : List ℚ) (M : ℚ) (hM : 0 ≤ M)
    (hxs : ∀ x ∈ xs, 0 ≤ x ∧ x ≤ M) :
    (0 ≤ (envFoldl ⟨1/200, 1/50, 0⟩ xs).y1 ∧
     (envFoldl ⟨1/200, 1/50, 0⟩ xs).y1 ≤ M) ∧
    (∀ b ∈ initBands, b.envelopeFollower = ⟨1/200, 1/50, 0⟩) := by
  refine ⟨envFoldl_bounds M xs ⟨1/200, 1/50, 0⟩ rfl rfl hxs le_rfl hM, ?_⟩
  intro b hb
  simp only [initBands, bandFreqs, List.map, List.mem_cons, List.not_mem_nil,
    or_false] at hb
  rcases hb with h | h | h | h | h | h | h | h <;> rw [h] <;> rfl

/-- C10 witness: the bound applied to the one-element input list [1/2]
    with M = 1. -/
theorem C10_envelope_bounded_witness :
    0 ≤ (envFoldl ⟨1/200, 1/50, 0⟩ [1/2]).y1 ∧
    (envFoldl ⟨1/200, 1/50, 0⟩ [1/2]).y1 ≤ 1 :=
  (C10_envelope_bounded [1/2] 1 (by norm_num)
    (by intro x hx; simp only [List.mem_singleton] at hx; rw [hx]; norm_num)).1

lemma svfClock_zero (a1 a2 a3 : ℚ) : svfClock zeroStage 0 a1 a2 a3 = zeroStage := by
  simp [svfClock, zeroStage]

lemma svfTap_zero (mode : SVFMode) : svfTap mode zeroStage = 0 := by
  cases mode <;> rfl

lemma svfStagesRun_zero (mode : SVFMode) (a1 a2 a3 : ℚ) :
    ∀ stages : List SVFStage, (∀ s ∈ stages, s = zeroStage) →
      (svfStagesRun mode a1 a2 a3 stages 0).1 = 0 ∧
      ∀ s ∈ (svfStagesRun mode a1 a2 a3 stages 0).2, s = zeroStage := by
  intro stages
  induction stages with
  | nil => intro _; exact ⟨rfl, by intro s hs; cases hs⟩
  | cons s rest ih =>
    intro h
    have hs : s = zeroStage := h s (List.mem_cons_self s rest)
    have hrest : ∀ t ∈ rest, t = zeroStage :=
      fun t ht => h t (List.mem_cons_of_mem s ht)
    have hstep : svfStagesRun mode a1 a2 a3 (s :: rest) 0 =
        ((svfStagesRun mode a1 a2 a3 rest (svfTap mode (svfClock (svfClock s 0 a1 a2 a3) 0 a1 a2 a3))).1,
         svfClock (svfClock s 0 a1 a2 a3) 0 a1 a2 a3 ::
           (svfStagesRun mode a1 a2 a3 rest (svfTap mode (svfClock (svfClock s 0 a1 a2 a3) 0 a1 a2 a3))).2) := rfl
    rw [hstep, hs, svfClock_zero, svfClock_zero, svfTap_zero]
    obtain ⟨h1, h2⟩ := ih hrest
    refine ⟨h1, ?_⟩
    intro t ht
    rcases List.mem_cons.1 ht with h | h
    · exact h
    · exact h2 t h

lemma svfCoeffs_stages (tanpi : ℚ → ℚ) (f : SVF) :
    (svfCoeffs tanpi f).stages = f.stages := by
  unfold svfCoeffs
  split <;> rfl

lemma svfProcess_zero (tanpi : ℚ → ℚ) (f : SVF)
    (h : ∀ s ∈ f.stages, s = zeroStage) :
    (svfProcess tanpi f 0).1 = 0 ∧
    ∀ s ∈ (svfProcess tanpi f 0).2.stages, s = zeroStage := by
  have hs : (svfCoeffs tanpi f).stages = f.stages := svfCoeffs_stages tanpi f
  have h2 := svfStagesRun_zero (svfCoeffs tanpi f).mode (svfCoeffs tanpi f).a1
    (svfCoeffs tanpi f).a2 (svfCoeffs tanpi f).a3 (svfCoeffs tanpi f).stages
    (by rw [hs]; exact h)
  exact ⟨h2.1, h2.2⟩

lemma envProcess_zero (e : EnvelopeFollower) (h : e.y1 = 0) :
    (envProcess e 0).1 = 0 ∧ (envProcess e 0).2.y1 = 0 := by
  constructor <;> simp [envProcess, h]

lemma bandStep_zero (tanpi : ℚ → ℚ) (fc carS : ℚ) (b : Band)
    (h : bandModZero b) :
    (bandStep tanpi fc 0 carS b).1 = 0 ∧
    bandModZero (bandStep tanpi fc 0 carS b).2 := by
  obtain ⟨hstages, henv⟩ := h
  have hmod := svfProcess_zero tanpi { b.modFilter with fc := fc } hstages
  have hout : (svfProcess tanpi { b.modFilter with fc := fc } 0).1 = 0 := hmod.1
  have habs : |(svfProcess tanpi { b.modFilter with fc := fc } 0).1| = 0 := by
    rw [hout]; simp
  have henv2 := envProcess_zero b.envelopeFollower henv
  constructor
  · show (svfProcess tanpi { b.carrierFilter with fc := fc } carS).1 *
      (envProcess b.envelopeFollower
        |(svfProcess tanpi { b.modFilter with fc := fc } 0).1|).1 = 0
    rw [habs, henv2.1, mul_zero]
  · constructor
    · show ∀ s ∈ (svfProcess tanpi { b.modFilter with fc := fc } 0).2.stages,
        s = zeroStage
      exact hmod.2
    · show (envProcess b.envelopeFollower
        |(svfProcess tanpi { b.modFilter with fc := fc } 0).1|).2.y1 = 0
      rw [habs]
      exact henv2.2

lemma bandsRun_zero (tanpi : ℚ → ℚ) (fcOf : ℚ → ℚ) (carS : ℚ) :
    ∀ bands : List Band, (∀ b ∈ bands, bandModZero b) →
      (bandsRun tanpi fcOf 0 carS bands).1 = 0 ∧
      ∀ b ∈ (bandsRun tanpi fcOf 0 carS bands).2, bandModZero b := by
  intro bands
  induction bands with
  | nil => intro _; exact ⟨rfl, by intro b hb; cases hb⟩
  | cons b rest ih =>
    intro h
    have hb : bandModZero b := h b (List.mem_cons_self b rest)
    have hrest := ih (fun t ht => h t (List.mem_cons_of_mem b ht))
    have hstep := bandStep_zero tanpi (fcOf b.freq) carS b hb
    have e : bandsRun tanpi fcOf 0 carS (b :: rest) =
        ((bandStep tanpi (fcOf b.freq) 0 carS b).1 +
           (bandsRun tanpi fcOf 0 carS rest).1,
         (bandStep tanpi (fcOf b.freq) 0 carS b).2 ::
           (bandsRun tanpi fcOf 0 carS rest).2) := rfl
    rw [e]
    refine ⟨by rw [hstep.1, hrest.1, add_zero], ?_⟩
    intro t ht
    rcases List.mem_cons.1 ht with hh | hh
    · rw [hh]; exact hstep.2
    · exact hrest.2 t hh

lemma processorSample_zero (pow2 tanpi : ℚ → ℚ) (rnd : ℕ → ℚ) (p : Processor)
    (h : ∀ b ∈ p.bands, bandModZero b) :
    (processorSample pow2 tanpi rnd 0 p).1 = 0 ∧
    ∀ b ∈ (processorSample pow2 tanpi rnd 0 p).2.bands, bandModZero b := by
  have hr := bandsRun_zero tanpi (fun fr => pow2 p.ps.size * fr * p.dt)
    (syProcess pow2 p.ps p.dt (rnd p.rndIdx) p.carrierSynth).1 p.bands h
  constructor
  · show (bandsRun tanpi (fun fr => pow2 p.ps.size * fr * p.dt) 0
      (syProcess pow2 p.ps p.dt (rnd p.rndIdx) p.carrierSynth).1 p.bands).1 * 4 = 0
    rw [hr.1, zero_mul]
  · exact hr.2

lemma getD_replicate_zero : ∀ (n i : ℕ), (List.replicate n (0:ℚ)).getD i 0 = 0 := by
  intro n
  induction n with
  | zero => intro i; cases i <;> rfl
  | succ n ih =>
    intro i
    cases i with
    | zero => rfl
    | succ i => exact ih i

lemma runFrom_zero (pow2 tanpi : ℚ → ℚ) (rnd : ℕ → ℚ) (mc : List ℚ)
    (hmc : ∀ j, mc.getD j 0 = 0) :
    ∀ (c i : ℕ) (p : Processor), (∀ b ∈ p.bands, bandModZero b) →
      (∀ v ∈ (runFrom pow2 tanpi rnd mc p i c).1, v = 0) ∧
      (runFrom pow2 tanpi rnd mc p i c).1.length = c := by
  intro c
  induction c with
  | zero =>
    intro i p _
    refine ⟨?_, rfl⟩
    intro v hv
    cases hv
  | succ c ih =>
    intro i p hp
    have hz' := processorSample_zero pow2 tanpi rnd p hp
    have e : runFrom pow2 tanpi rnd mc p i (c+1) =
        ((processorSample pow2 tanpi rnd (mc.getD i 0) p).1 ::
           (runFrom pow2 tanpi rnd mc
             (processorSample pow2 tanpi rnd (mc.getD i 0) p).2 (i+1) c).1,
         (runFrom pow2 tanpi rnd mc
           (processorSample pow2 tanpi rnd (mc.getD i 0) p).2 (i+1) c).2) := rfl
    rw [e, hmc i]
    have hrest := ih (i+1) (processorSample pow2 tanpi rnd 0 p).2 hz'.2
    constructor
    · intro v hv
      rcases List.mem_cons.1 hv with h | h
      · rw [h]; exact hz'.1
      · exact hrest.1 v h
    · simpa using hrest.2

lemma writeFront_zero (ch samples : List ℚ)
    (hch : ∀ v ∈ ch, v = 0) (hs : ∀ v ∈ samples, v = 0) :
    ∀ v ∈ writeFront ch samples, v = 0 := by
  intro v hv
  rcases List.mem_append.1 hv with h | h
  · exact hs v (List.take_subset _ _ h)
  · exact hch v (List.drop_subset _ _ h)

lemma writeFirstTwo_zero (output : List (List ℚ)) (samples : List ℚ)
    (hout : ∀ ch ∈ output, ∀ v ∈ ch, v = 0) (hs : ∀ v ∈ samples, v = 0) :
    ∀ ch ∈ writeFirstTwo output samples, ∀ v ∈ ch, v = 0 := by
  match output with
  | [] => intro ch hch; cases hch
  | [ch0] =>
    intro ch hch
    rcases List.mem_cons.1 hch with h | h
    · rw [h]
      exact writeFront_zero ch0 samples (hout ch0 (List.mem_cons_self _ _)) hs
    · cases h
  | ch0 :: ch1 :: rest =>
    intro ch hch
    rcases List.mem_cons.1 hch with h | h
    · rw [h]
      exact writeFront_zero ch0 samples (hout ch0 (by simp)) hs
    · rcases List.mem_cons.1 h with h2 | h2
      · rw [h2]
        exact writeFront_zero ch1 samples (hout ch1 (by simp)) hs
      · exact hout ch (by simp [h2])

lemma replicate_zero_mem : ∀ (n : ℕ) (v : ℚ), v ∈ List.replicate n (0:ℚ) → v = 0 := by
  intro n v hv
  exact List.eq_of_mem_replicate hv

lemma initBands_bandModZero : ∀ b ∈ initBands, bandModZero b := by
  intro b hb
  simp only [initBands, bandFreqs, List.map, List.mem_cons, List.not_mem_nil,
    or_false] at hb
  rcases hb with h | h | h | h | h | h | h | h <;>
    · rw [h]
      refine ⟨?_, rfl⟩
      intro s hs
      simp only [mkBand, mkSVF, List.mem_replicate] at hs
      exact hs.2

/-- C6: a `process` callback with an absent or empty modulator input
    writes zeros into the output (whose buffers the Web Audio host hands
    over zero-filled, recorded here as the `hout` hypothesis), leaves the
    engine state untouched and returns `true` (defined behaviour, not an
    error); and from the engine's initial all-zero filter/envelope state
    (under any parameter snapshot), an all-zero modulator buffer also
    yields an all-zero output of the requested length, whatever the
    carrier does. -/
theorem C6_zero_modulator (pow2 tanpi : ℚ → ℚ) (rnd : ℕ → ℚ) (p : Processor)
    (modInput output : List (List ℚ)) (prms : Params) (sr : ℚ) (n : ℕ)
    (hout : ∀ ch ∈ output, ∀ v ∈ ch, v = 0) :
    ((modInput.length = 0 ∨ (modInput.headD []).length = 0) →
      ((∀ ch ∈ (processBlock pow2 tanpi rnd p modInput output).outs, ∀ v ∈ ch, v = 0) ∧
       (processBlock pow2 tanpi rnd p modInput output).state = p ∧
       (processBlock pow2 tanpi rnd p modInput output).keepAlive = true)) ∧
    ((∀ ch ∈ (processBlock pow2 tanpi rnd
        (paramsSet (mkProcessor pow2 rnd sr) prms)
        [List.replicate n 0] output).outs, ∀ v ∈ ch, v = 0) ∧
     (processBlock pow2 tanpi rnd (paramsSet (mkProcessor pow2 rnd sr) prms)
        [List.replicate n 0] output).keepAlive = true) := by
  constructor
  · intro hempty
    have e : processBlock pow2 tanpi rnd p modInput output =
        { outs := writeFirstTwo output (List.replicate (output.headD []).length 0),
          state := p, keepAlive := true } := by
      unfold processBlock
      rw [if_pos hempty]
    rw [e]
    exact ⟨writeFirstTwo_zero output _ hout (replicate_zero_mem _), rfl, rfl⟩
  · by_cases hn : n = 0
    · subst hn
      have e : processBlock pow2 tanpi rnd
          (paramsSet (mkProcessor pow2 rnd sr) prms) [List.replicate 0 0] output =
          { outs := writeFirstTwo output (List.replicate (output.headD []).length 0),
            state := paramsSet (mkProcessor pow2 rnd sr) prms, keepAlive := true } := by
        unfold processBlock
        rw [if_pos (by simp [List.replicate])]
      rw [e]
      exact ⟨writeFirstTwo_zero output _ hout (replicate_zero_mem _), rfl⟩
    · have hne : ¬(([List.replicate n (0:ℚ)] : List (List ℚ)).length = 0 ∨
          (([List.replicate n (0:ℚ)] : List (List ℚ)).headD []).length = 0) := by
        simp [List.length_replicate, hn]
      have e : processBlock pow2 tanpi rnd
          (paramsSet (mkProcessor pow2 rnd sr) prms) [List.replicate n 0] output =
          { outs := writeFirstTwo output
              (runFrom pow2 tanpi rnd (List.replicate n 0)
                (paramsSet (mkProcessor pow2 rnd sr) prms) 0
                (output.headD []).length).1,
            state := (runFrom pow2 tanpi rnd (List.replicate n 0)
                (paramsSet (mkProcessor pow2 rnd sr) prms) 0
                (output.headD []).length).2,
            keepAlive := true } := by
        unfold processBlock
        rw [if_neg hne]
        rfl
      rw [e]
      have hbands : ∀ b ∈ (paramsSet (mkProcessor pow2 rnd sr) prms).bands,
          bandModZero b := initBands_bandModZero
      have hz := runFrom_zero pow2 tanpi rnd (List.replicate n 0)
        (fun j => getD_replicate_zero n j) (output.headD []).length 0
        (paramsSet (mkProcessor pow2 rnd sr) prms) hbands
      exact ⟨writeFirstTwo_zero output _ hout hz.1, rfl⟩

/-- C6 witness: the empty-modulator branch at a concrete 2-sample stereo
    output returns `true`. -/
theorem C6_zero_modulator_witness :
    (processBlock (fun _ => 1) (fun _ => 1) (fun _ => 0)
      (mkProcessor (fun _ => 1) (fun _ => 0) 44100) [] [[0, 0], [0, 0]]).keepAlive
      = true :=
  (((C6_zero_modulator (fun _ => 1) (fun _ => 1) (fun _ => 0)
      (mkProcessor (fun _ => 1) (fun _ => 0) 44100) [] [[0, 0], [0, 0]]
      ⟨0, 0, 1, 0⟩ 44100 2
      (by intro ch hch v hv; simp_all)).1 (Or.inl rfl)).2).2

lemma writeFront_nil (samples : List ℚ) : writeFront [] samples = [] := by
  simp [writeFront]

lemma writeFirstTwo_getD0 (output : List (List ℚ)) (samples : List ℚ) :
    (writeFirstTwo output samples).getD 0 [] =
      writeFront (output.getD 0 []) samples := by
  match output with
  | [] => simp [writeFirstTwo, writeFront]
  | [ch0] => rfl
  | ch0 :: ch1 :: rest => rfl

lemma writeFirstTwo_getD1 (output : List (List ℚ)) (samples : List ℚ) :
    (writeFirstTwo output samples).getD 1 [] =
      writeFront (output.getD 1 []) samples := by
  match output with
  | [] => simp [writeFirstTwo, writeFront]
  | [ch0] => simp [writeFirstTwo, writeFront]
  | ch0 :: ch1 :: rest => rfl

lemma writeFirstTwo_getD_ge2 (output : List (List ℚ)) (samples : List ℚ) :
    ∀ k, 2 ≤ k → (writeFirstTwo output samples).getD k [] = output.getD k [] := by
  intro k hk
  obtain ⟨k2, rfl⟩ : ∃ k2, k = k2 + 2 := ⟨k - 2, by omega⟩
  match output with
  | [] => rfl
  | [ch0] => rfl
  | ch0 :: ch1 :: rest => rfl

lemma writeFirstTwo_length (output : List (List ℚ)) (samples : List ℚ) :
    (writeFirstTwo output samples).length = output.length := by
  match output with
  | [] => rfl
  | [ch0] => rfl
  | ch0 :: ch1 :: rest => rfl

/-- C5, amended part.  For a non-empty modulator input the engine's
    per-sample scalar results (the 8-band sum times the fixed gain 4) are
    written into output channel 0 and into output channel 1 when it
    exists — but into no further channel: every channel of index ≥ 2
    keeps its pre-call contents.  Multichannel output is replication of
    the mono engine output only across the first two channels. -/
theorem C5_channel_replication_amended (pow2 tanpi : ℚ → ℚ) (rnd : ℕ → ℚ)
    (p : Processor) (modInput output : List (List ℚ))
    (h : ¬(modInput.length = 0 ∨ (modInput.headD []).length = 0)) :
    ((processBlock pow2 tanpi rnd p modInput output).outs.getD 0 [] =
      writeFront (output.getD 0 [])
        (runFrom pow2 tanpi rnd (modInput.headD []) p 0
          (output.headD []).length).1) ∧
    ((processBlock pow2 tanpi rnd p modInput output).outs.getD 1 [] =
      writeFront (output.getD 1 [])
        (runFrom pow2 tanpi rnd (modInput.headD []) p 0
          (output.headD []).length).1) ∧
    (∀ k, 2 ≤ k →
      (processBlock pow2 tanpi rnd p modInput output).outs.getD k [] =
        output.getD k []) ∧
    (processBlock pow2 tanpi rnd p modInput output).outs.length = output.length := by
  have e : processBlock pow2 tanpi rnd p modInput output =
      { outs := writeFirstTwo output
          (runFrom pow2 tanpi rnd (modInput.headD []) p 0
            (output.headD []).length).1,
        state := (runFrom pow2 tanpi rnd (modInput.headD []) p 0
            (output.headD []).length).2,
        keepAlive := true } := by
    unfold processBlock
    rw [if_neg h]
  rw [e]
  exact ⟨writeFirstTwo_getD0 output _, writeFirstTwo_getD1 output _,
    writeFirstTwo_getD_ge2 output _, writeFirstTwo_length output _⟩

unseal Rat.mul Rat.inv Rat.add Rat.sub in
/-- C5 witness: the untouched-channel equation applied at channel index 2
    of a concrete 3-channel call. -/
theorem C5_channel_replication_witness :
    (processBlock (fun _ => 1) (fun _ => 1) (fun _ => 0)
      (mkProcessor (fun _ => 1) (fun _ => 0) 44100)
      [[1]] [[0], [0], [0]]).outs.getD 2 [] = [0] :=
  (C5_channel_replication_amended (fun _ => 1) (fun _ => 1) (fun _ => 0)
    (mkProcessor (fun _ => 1) (fun _ => 0) 44100) [[1]] [[0], [0], [0]]
    (by simp)).2.2.1 2 le_rfl

unseal Rat.mul Rat.inv Rat.add Rat.sub in
/-- C5 counterexample: the claim says the scalar result is written into
    every output channel, whatever the channel count.  On a 3-channel
    output with modulator sample 1 the code writes a nonzero result into
    channel 0 but leaves channel 2 at its zero-initialized contents, so
    channel 2 differs from channel 0. -/
theorem C5_channel_replication_cex :
    ((processBlock (fun _ => 1) (fun _ => 1) (fun _ => 0)
        (mkProcessor (fun _ => 1) (fun _ => 0) 44100)
        [[1]] [[0], [0], [0]]).outs.getD 0 []).getD 0 0 ≠
      ((processBlock (fun _ => 1) (fun _ => 1) (fun _ => 0)
        (mkProcessor (fun _ => 1) (fun _ => 0) 44100)
        [[1]] [[0], [0], [0]]).outs.getD 2 []).getD 0 0 := by
  decide

lemma svfProcess_fc (tanpi : ℚ → ℚ) (f : SVF) (x : ℚ) :
    (svfProcess tanpi f x).2.fc = f.fc := by
  show (svfCoeffs tanpi f).fc = f.fc
  unfold svfCoeffs
  split <;> rfl

lemma bandStep_modFc (tanpi : ℚ → ℚ) (fc modS carS : ℚ) (b : Band) :
    (bandStep tanpi fc modS carS b).2.modFilter.fc = fc := by
  show (svfProcess tanpi { b.modFilter with fc := fc } modS).2.fc = fc
  rw [svfProcess_fc]

lemma bandStep_carFc (tanpi : ℚ → ℚ) (fc modS carS : ℚ) (b : Band) :
    (bandStep tanpi fc modS carS b).2.carrierFilter.fc = fc := by
  show (svfProcess tanpi { b.carrierFilter with fc := fc } carS).2.fc = fc
  rw [svfProcess_fc]

lemma bandsRun_fcs (tanpi : ℚ → ℚ) (fcOf : ℚ → ℚ) (modS carS : ℚ) :
    ∀ bands : List Band,
      ((bandsRun tanpi fcOf modS carS bands).2.map (fun b => b.modFilter.fc) =
        bands.map (fun b => fcOf b.freq)) ∧
      ((bandsRun tanpi fcOf modS carS bands).2.map (fun b => b.carrierFilter.fc) =
        bands.map (fun b => fcOf b.freq)) := by
  intro bands
  induction bands with
  | nil => exact ⟨rfl, rfl⟩
  | cons b rest ih =>
    have e : (bandsRun tanpi fcOf modS carS (b :: rest)).2 =
        (bandStep tanpi (fcOf b.freq) modS carS b).2 ::
          (bandsRun tanpi fcOf modS carS rest).2 := rfl
    rw [e]
    constructor
    · show (bandStep tanpi (fcOf b.freq) modS carS b).2.modFilter.fc ::
          ((bandsRun tanpi fcOf modS carS rest).2.map (fun b => b.modFilter.fc)) =
        fcOf b.freq :: (rest.map (fun b => fcOf b.freq))
      rw [bandStep_modFc, ih.1]
    · show (bandStep tanpi (fcOf b.freq) modS carS b).2.carrierFilter.fc ::
          ((bandsRun tanpi fcOf modS carS rest).2.map (fun b => b.carrierFilter.fc)) =
        fcOf b.freq :: (rest.map (fun b => fcOf b.freq))
      rw [bandStep_carFc, ih.2]

lemma fc_bound (pw dt fr : ℚ) (hpw : 0 < pw) (hdt : 0 < dt) (hfr : 0 < fr)
    (hfr2 : fr ≤ 4865) (hub : pw * 4865 * dt < 1/2) :
    0 < pw * fr * dt ∧ pw * fr * dt < 1/2 := by
  constructor
  · exact mul_pos (mul_pos hpw hfr) hdt
  · have key : 0 ≤ pw * dt * (4865 - fr) :=
      mul_nonneg (mul_pos hpw hdt).le (by linarith)
    nlinarith [key]

lemma processorSample_fcs (pow2 tanpi : ℚ → ℚ) (rnd : ℕ → ℚ) (modS : ℚ)
    (p : Processor) :
    ((processorSample pow2 tanpi rnd modS p).2.bands.map
        (fun b => b.modFilter.fc) =
      p.bands.map (fun b => pow2 p.ps.size * b.freq * p.dt)) ∧
    ((processorSample pow2 tanpi rnd modS p).2.bands.map
        (fun b => b.carrierFilter.fc) =
      p.bands.map (fun b => pow2 p.ps.size * b.freq * p.dt)) := by
  have hmap := bandsRun_fcs tanpi (fun fr => pow2 p.ps.size * fr * p.dt) modS
    (syProcess pow2 p.ps p.dt (rnd p.rndIdx) p.carrierSynth).1 p.bands
  have e : (processorSample pow2 tanpi rnd modS p).2.bands =
      (bandsRun tanpi (fun fr => pow2 p.ps.size * fr * p.dt) modS
        (syProcess pow2 p.ps p.dt (rnd p.rndIdx) p.carrierSynth).1 p.bands).2 := rfl
  exact ⟨by rw [e]; exact hmap.1, by rw [e]; exact hmap.2⟩

/-- C3, amended part.  The engine computes each band's cutoff exactly as
    `(2 ** formantShift) * centerFreq * dt` and assigns it to both
    filters with NO clamping of any kind; the stability precondition
    `fc ∈ (0, 0.5)` therefore holds at the engine's call sites only when
    the sample rate is high enough, namely when
    `(2 ** formantShift) * 4865 * dt < 1/2` (so e.g. at 44100 Hz for
    every formantShift ≤ 2 octaves, but not at every sample rate the
    engine may run at). -/
theorem C3_cutoff_amended (pow2 tanpi : ℚ → ℚ) (rnd : ℕ → ℚ) (modS : ℚ)
    (p : Processor) :
    ((processorSample pow2 tanpi rnd modS p).2.bands.map
        (fun b => b.modFilter.fc) =
      p.bands.map (fun b => pow2 p.ps.size * b.freq * p.dt)) ∧
    ((processorSample pow2 tanpi rnd modS p).2.bands.map
        (fun b => b.carrierFilter.fc) =
      p.bands.map (fun b => pow2 p.ps.size * b.freq * p.dt)) ∧
    (0 < p.dt → 0 < pow2 p.ps.size → pow2 p.ps.size * 4865 * p.dt < 1/2 →
      p.bands = initBands →
      ∀ fc ∈ (processorSample pow2 tanpi rnd modS p).2.bands.map
        (fun b => b.modFilter.fc), 0 < fc ∧ fc < 1/2) := by
  have hmap := processorSample_fcs pow2 tanpi rnd modS p
  refine ⟨hmap.1, hmap.2, ?_⟩
  intro hdt hpw hub hbands fc hfc
  rw [hmap.1, hbands] at hfc
  simp only [initBands, bandFreqs, mkBand, List.map, List.mem_cons,
    List.not_mem_nil, or_false] at hfc
  rcases hfc with h | h | h | h | h | h | h | h <;> rw [h] <;>
    exact fc_bound _ _ _ hpw hdt (by norm_num) (by norm_num) hub

unseal Rat.mul Rat.inv Rat.add Rat.sub in
/-- C3 witness: at 44100 Hz with formantShift 0 (via a power function
    returning 1) every computed cutoff lies in the valid range; band 0
    gives cutoff 1 * 123 * (1/44100). -/
theorem C3_cutoff_witness :
    0 < (1 : ℚ) * 123 * (1 / 44100) ∧ (1 : ℚ) * 123 * (1 / 44100) < 1/2 :=
  (C3_cutoff_amended (fun _ => 1) (fun _ => 1) (fun _ => 0) 1
    (mkProcessor (fun _ => 1) (fun _ => 0) 44100)).2.2
    (by norm_num [mkProcessor]) (by norm_num) (by norm_num [mkProcessor]) rfl
    ((1 : ℚ) * 123 * (1 / 44100))
    (by rw [(processorSample_fcs (fun _ => 1) (fun _ => 1) (fun _ => 0) 1
        (mkProcessor (fun _ => 1) (fun _ => 0) 44100)).1]
        decide)

unseal Rat.mul Rat.inv Rat.add Rat.sub in
/-- C3 counterexample: the claim says the computed cutoff is clamped into
    (0, 0.5) before being applied, at every sample rate the engine may
    run at.  At sample rate 8000 Hz (a mandatory-support Web Audio rate)
    with formantShift = 2 (so `2 ** 2 = 4`), band 7 (4865 Hz) receives
    cutoff 4 * 4865 / 8000 = 973/400 = 2.4325 on both filter paths,
    far outside (0, 0.5) — no clamping happens. -/
theorem C3_cutoff_cex :
    ((processorSample (fun _ => 4) (fun _ => 1) (fun _ => 0) 0
        (paramsSet (mkProcessor (fun _ => 4) (fun _ => 0) 8000)
          ⟨0, 2, 1, 0⟩)).2.bands.map (fun b => b.modFilter.fc)).getD 7 0
        = 973/400 ∧
    ((processorSample (fun _ => 4) (fun _ => 1) (fun _ => 0) 0
        (paramsSet (mkProcessor (fun _ => 4) (fun _ => 0) 8000)
          ⟨0, 2, 1, 0⟩)).2.bands.map (fun b => b.carrierFilter.fc)).getD 7 0
        = 973/400 ∧
    ¬((973 : ℚ)/400 < 1/2) := by
  refine ⟨?_, ?_, by norm_num⟩
  · rw [(processorSample_fcs (fun _ => 4) (fun _ => 1) (fun _ => 0) 0
      (paramsSet (mkProcessor (fun _ => 4) (fun _ => 0) 8000) ⟨0, 2, 1, 0⟩)).1]
    decide
  · rw [(processorSample_fcs (fun _ => 4) (fun _ => 1) (fun _ => 0) 0
      (paramsSet (mkProcessor (fun _ => 4) (fun _ => 0) 8000) ⟨0, 2, 1, 0⟩)).2]
    decide

lemma jsMod1_mem_Ico (x : ℚ) (h : 0 ≤ x) : 0 ≤ jsMod1 x ∧ jsMod1 x < 1 := by
  unfold jsMod1 ratTrunc
  rw [if_pos h]
  constructor
  · have := Int.floor_le x
    linarith
  · have := Int.lt_floor_add_one x
    push_cast at this
    linarith

lemma syProcess_inv (pow2 : ℚ → ℚ) (ps : Params) (dt noise : ℚ) (s : Sy)
    (hs : syInv s) (hfreq : 0 ≤ midi_to_hz pow2 (40 + ps.pitch) * dt) :
    syInv (syProcess pow2 ps dt noise s).2 := by
  intro op hop
  have e : (syProcess pow2 ps dt noise s).2.ops =
      (s.ops.map (opTick (midi_to_hz pow2 (40 + ps.pitch) * dt))).map Prod.snd := rfl
  rw [e, List.map_map] at hop
  obtain ⟨op0, hop0, rfl⟩ := List.mem_map.1 hop
  obtain ⟨⟨hp0, _⟩, hdet⟩ := hs op0 hop0
  have harg : 0 ≤ op0.p + (midi_to_hz pow2 (40 + ps.pitch) * dt) * op0.detune := by
    have := mul_nonneg hfreq hdet.le
    linarith
  have hmod := jsMod1_mem_Ico _ harg
  exact ⟨⟨hmod.1, hmod.2⟩, hdet⟩

lemma mkSy_inv (pow2 : ℚ → ℚ) (rnd : ℕ → ℚ)
    (hrnd : ∀ m, 0 ≤ rnd m ∧ rnd m < 1) (hpow : ∀ z, 0 < pow2 z) :
    syInv (mkSy pow2 rnd) := by
  intro op hop
  simp only [mkSy, List.mem_map, List.mem_range] at hop
  obtain ⟨i, _, rfl⟩ := hop
  exact ⟨hrnd i, hpow _⟩

lemma processorSample_sy (pow2 tanpi : ℚ → ℚ) (rnd : ℕ → ℚ) (modS : ℚ)
    (p : Processor) :
    (processorSample pow2 tanpi rnd modS p).2.carrierSynth =
      (syProcess pow2 p.ps p.dt (rnd p.rndIdx) p.carrierSynth).2 := rfl

lemma processorSample_dt (pow2 tanpi : ℚ → ℚ) (rnd : ℕ → ℚ) (modS : ℚ)
    (p : Processor) : (processorSample pow2 tanpi rnd modS p).2.dt = p.dt := rfl

lemma runFrom_syInv (pow2 tanpi : ℚ → ℚ) (rnd : ℕ → ℚ) (mc : List ℚ)
    (hpow : ∀ z, 0 < pow2 z) :
    ∀ (c i : ℕ) (p : Processor), syInv p.carrierSynth → 0 < p.dt →
      syInv (runFrom pow2 tanpi rnd mc p i c).2.carrierSynth := by
  intro c
  induction c with
  | zero => intro i p hp _; exact hp
  | succ c ih =>
    intro i p hp hdt
    have e : (runFrom pow2 tanpi rnd mc p i (c+1)).2 =
        (runFrom pow2 tanpi rnd mc
          (processorSample pow2 tanpi rnd (mc.getD i 0) p).2 (i+1) c).2 := rfl
    rw [e]
    have hfreq : 0 ≤ midi_to_hz pow2 (40 + p.ps.pitch) * p.dt := by
      have h1 : 0 < pow2 ((40 + p.ps.pitch - 69) / 12) := hpow _
      have h2 : 0 < midi_to_hz pow2 (40 + p.ps.pitch) := by
        unfold midi_to_hz
        positivity
      positivity
    refine ih (i+1) _ ?_ ?_
    · rw [processorSample_sy]
      exact syProcess_inv pow2 p.ps p.dt (rnd p.rndIdx) p.carrierSynth hp hfreq
    · rw [processorSample_dt]
      exact hdt

/-- C9: with every `Math.random()` draw in [0,1), a positive power
    function (JS `2 ** x` is positive on the engine's arguments), a
    positive sample rate, pitchOffset in [-24,24] and carrierNoiseMix 0,
    every oscillator phase of the engine remains in [0,1) after any run:
    the initial phases are random draws in [0,1) and each tick adds the
    non-negative increment `baseFreq * detuneRatio` and wraps with
    `%= 1`. -/
theorem C9_phase_invariant (pow2 tanpi : ℚ → ℚ) (rnd : ℕ → ℚ) (sr : ℚ)
    (prms : Params) (mc : List ℚ) (n : ℕ)
    (hrnd : ∀ m, 0 ≤ rnd m ∧ rnd m < 1)
    (hpow : ∀ z, 0 < pow2 z)
    (hsr : 0 < sr)
    (_hpitch : -24 ≤ prms.pitch ∧ prms.pitch ≤ 24)
    (_hnoise : prms.carrierNoise = 0) :
    ∀ op ∈ (runFrom pow2 tanpi rnd mc
        (paramsSet (mkProcessor pow2 rnd sr) prms) 0 n).2.carrierSynth.ops,
      0 ≤ op.p ∧ op.p < 1 := by
  have hinit : syInv (paramsSet (mkProcessor pow2 rnd sr) prms).carrierSynth :=
    mkSy_inv pow2 rnd hrnd hpow
  have hdt : 0 < (paramsSet (mkProcessor pow2 rnd sr) prms).dt := by
    show 0 < 1 / sr
    positivity
  have h := runFrom_syInv pow2 tanpi rnd mc hpow n 0
    (paramsSet (mkProcessor pow2 rnd sr) prms) hinit hdt
  intro op hop
  exact (h op hop).1

unseal Rat.mul Rat.inv Rat.add Rat.sub in
/-- C9 witness: after a 2-sample run at sample rate 10 with unit power
    function and constant draws 1/2, the phase of each partial (all equal
    to ⟨1/2, 1⟩) lies in [0,1). -/
theorem C9_phase_invariant_witness :
    0 ≤ (Op.mk (1/2) 1).p ∧ (Op.mk (1/2) 1).p < 1 :=
  C9_phase_invariant (fun _ => 1) (fun _ => 1) (fun _ => 1/2) 10
    ⟨0, 0, 1, 0⟩ [1, 1] 2
    (fun m => by norm_num) (fun z => by norm_num) (by norm_num)
    (by constructor <;> norm_num) rfl
    (Op.mk (1/2) 1) (by decide)

lemma lerp_zero_mix (a b : ℚ) : lerp a b 0 = a := by
  unfold lerp
  ring

lemma syProcess_noise_irrel (pow2 : ℚ → ℚ) (ps : Params) (dt : ℚ) (s : Sy)
    (h : ps.carrierNoise = 0) (n1 n2 : ℚ) :
    syProcess pow2 ps dt n1 s = syProcess pow2 ps dt n2 s := by
  unfold syProcess
  rw [h]
  simp only [lerp_zero_mix]

lemma processorSample_rnd_irrel (pow2 tanpi : ℚ → ℚ) (r1 r2 : ℕ → ℚ)
    (modS : ℚ) (p : Processor) (h : p.ps.carrierNoise = 0) :
    processorSample pow2 tanpi r1 modS p = processorSample pow2 tanpi r2 modS p := by
  unfold processorSample
  rw [syProcess_noise_irrel pow2 p.ps p.dt p.carrierSynth h (r1 p.rndIdx) (r2 p.rndIdx)]

lemma processorSample_ps (pow2 tanpi : ℚ → ℚ) (rnd : ℕ → ℚ) (modS : ℚ)
    (p : Processor) : (processorSample pow2 tanpi rnd modS p).2.ps = p.ps := rfl

lemma runFrom_rnd_irrel (pow2 tanpi : ℚ → ℚ) (r1 r2 : ℕ → ℚ) (mc : List ℚ) :
    ∀ (c i : ℕ) (p : Processor), p.ps.carrierNoise = 0 →
      runFrom pow2 tanpi r1 mc p i c = runFrom pow2 tanpi r2 mc p i c := by
  intro c
  induction c with
  | zero => intro i p _; rfl
  | succ c ih =>
    intro i p hp
    have e1 : runFrom pow2 tanpi r1 mc p i (c+1) =
        ((processorSample pow2 tanpi r1 (mc.getD i 0) p).1 ::
           (runFrom pow2 tanpi r1 mc
             (processorSample pow2 tanpi r1 (mc.getD i 0) p).2 (i+1) c).1,
         (runFrom pow2 tanpi r1 mc
           (processorSample pow2 tanpi r1 (mc.getD i 0) p).2 (i+1) c).2) := rfl
    have e2 : runFrom pow2 tanpi r2 mc p i (c+1) =
        ((processorSample pow2 tanpi r2 (mc.getD i 0) p).1 ::
           (runFrom pow2 tanpi r2 mc
             (processorSample pow2 tanpi r2 (mc.getD i 0) p).2 (i+1) c).1,
         (runFrom pow2 tanpi r2 mc
           (processorSample pow2 tanpi r2 (mc.getD i 0) p).2 (i+1) c).2) := rfl
    rw [e1, e2, processorSample_rnd_irrel pow2 tanpi r1 r2 (mc.getD i 0) p hp,
      ih (i+1) (processorSample pow2 tanpi r2 (mc.getD i 0) p).2
        (by rw [processorSample_ps]; exact hp)]

lemma mkSy_rnd_congr (pow2 : ℚ → ℚ) (r1 r2 : ℕ → ℚ)
    (h : ∀ i, i < 3 → r1 i = r2 i) : mkSy pow2 r1 = mkSy pow2 r2 := by
  unfold mkSy
  have h0 := h 0 (by norm_num)
  have h1 := h 1 (by norm_num)
  have h2 := h 2 (by norm_num)
  have e : List.range 3 = [0, 1, 2] := rfl
  rw [e]
  simp only [List.map, h0, h1, h2]

/-- C1, amended part.  Render-mode output is a function of the input
    buffer, the parameter snapshot AND the entropy the run observes: two
    render invocations whose random streams agree on the three
    constructor draws (the oscillator initial phases) produce
    byte-identical container output whenever carrierNoiseMix = 0 (the
    per-sample noise draw is then blended with weight 0 and cannot
    influence the result).  Determinism as stated — over independent
    invocations with independent `Math.random()` draws — does not hold;
    see the counterexample. -/
theorem C1_render_determinism_amended (pow2 tanpi : ℚ → ℚ) (r1 r2 : ℕ → ℚ)
    (prms : Params) (input : List ℚ) (sr : ℕ)
    (hn : prms.carrierNoise = 0)
    (hphase : ∀ i, i < 3 → r1 i = r2 i) :
    renderPipeline pow2 tanpi r1 prms input sr =
      renderPipeline pow2 tanpi r2 prms input sr := by
  have e : paramsSet (mkProcessor pow2 r1 (sr : ℚ)) prms =
      paramsSet (mkProcessor pow2 r2 (sr : ℚ)) prms := by
    unfold paramsSet mkProcessor
    rw [mkSy_rnd_congr pow2 r1 r2 hphase]
  have e1 : renderPipeline pow2 tanpi r1 prms input sr =
      audioBufferToWav [(runFrom pow2 tanpi r1 input
        (paramsSet (mkProcessor pow2 r1 (sr : ℚ)) prms) 0 input.length).1]
        input.length sr := rfl
  have e2 : renderPipeline pow2 tanpi r2 prms input sr =
      audioBufferToWav [(runFrom pow2 tanpi r2 input
        (paramsSet (mkProcessor pow2 r2 (sr : ℚ)) prms) 0 input.length).1]
        input.length sr := rfl
  rw [e1, e2, e, runFrom_rnd_irrel pow2 tanpi r1 r2 input input.length 0
    (paramsSet (mkProcessor pow2 r2 (sr : ℚ)) prms) hn]

/-- C1 witness: two distinct random streams that agree on the first three
    draws give byte-identical rendered output for a concrete one-sample
    buffer with carrierNoiseMix 0. -/
theorem C1_render_determinism_witness :
    renderPipeline (fun _ => 1) (fun _ => 1) (fun _ => 0) ⟨0, 0, 1, 0⟩ [1] 44100 =
      renderPipeline (fun _ => 1) (fun _ => 1)
        (fun n => if n < 3 then 0 else 1/2) ⟨0, 0, 1, 0⟩ [1] 44100 :=
  C1_render_determinism_amended (fun _ => 1) (fun _ => 1) (fun _ => 0)
    (fun n => if n < 3 then 0 else 1/2) ⟨0, 0, 1, 0⟩ [1] 44100 rfl
    (fun i hi => by simp [hi])

unseal Rat.mul Rat.inv Rat.add Rat.sub in
/-- C1 counterexample: the claim promises byte-identical output of two
    independent render invocations including the random initial phases
    and the blended noise.  Two runs over the same one-sample input with
    the same parameters but different entropy (all draws 0 versus all
    draws 1/2 — both legal `Math.random()` streams) start the oscillator
    phases at 0 versus 1/2, flip the carrier square wave, and produce
    different PCM bytes. -/
theorem C1_render_determinism_cex :
    renderPipeline (fun _ => 1) (fun _ => 1) (fun _ => 0) ⟨0, 0, 1, 0⟩ [1] 44100 ≠
      renderPipeline (fun _ => 1) (fun _ => 1) (fun _ => 1/2) ⟨0, 0, 1, 0⟩ [1] 44100 := by
  decide

end LoModics
